import Mathlib

set_option autoImplicit false

/-
Verification of the `route` dynamic HTTP router (package `route`,
source file with `registerHandler`, `parseTree`, `SplitPath`,
`responseWrapper` and `ServeHTTP`).

Shallow embedding conventions:
  * Go strings are Lean `String`s; `SplitPath` is implemented on the
    underlying `List Char` with the exact semantics of
    `strings.TrimPrefix(s, "/")`, `strings.TrimSuffix(p, "/")` and
    `strings.Split(_, "/")`.
  * The Go map `map[string]*node` is an association list
    `List (String × Node)` with unique keys in every trie produced by
    registration; both the registration walk and the lookup walk use a
    first-match discipline, matching Go map semantics on unique keys.
    The one place where Go map iteration order matters (the dynamic
    fallback scan of `parseTree`) is modelled by `List.find?`, and the
    order-independence of that scan is itself one of the verified
    claims (C3).
  * Handler and filter functions are modelled by their observable
    effect through the `responseWrapper` interface: a finite sequence
    of `WriteHeader`/`Write` calls followed by a normal return, a
    boolean return (filters) or a panic.
  * Go panics inside `registerHandler` are modelled as an error value
    paired with the trie state at the moment of the panic (the Go code
    mutates the trie in place, so nodes created before a conflicting
    token survive the panic).  The runtime nil-pointer dereference that
    Go raises when `n` is still nil at the final `n.handler` check is
    the distinguished error `RegError.nilNodePanic`, kept apart from
    the two deliberate `panic(...)` calls.
  * `ServeHTTP`'s deferred `recover` region is modelled by routing the
    panic outcome of filters/handlers into the forced-500 flush inside
    the total function `serveHTTP`; the dispatch always returns a
    `DispatchResult`, which is exactly the "panic is not re-raised"
    behaviour of the Go code.
-/

/-- Byte payload handed to `Write`; Go `[]byte` as a list of byte values. -/
abbrev Bytes := List Nat

/-- One call a filter or handler performs against the wrapped response
writer: `w.WriteHeader(code)` or `w.Write(body)`. -/
inductive WOp where
  | writeHeader (code : Nat)
  | write (body : Bytes)
deriving DecidableEq

/-- Observable behaviour of a registered handler
(`func(context.Context, http.ResponseWriter, *http.Request)`): the
sequence of response-writer calls it performs, and whether it ends by
panicking instead of returning. -/
structure HandlerSpec where
  ops : List WOp
  panics : Bool
deriving DecidableEq

/-- Observable behaviour of an `HttpFilter`
(`func(http.ResponseWriter, *http.Request) bool`): the response-writer
calls it performs, and its outcome — `some b` for a normal boolean
return, `none` when the filter panics. -/
structure FilterSpec where
  ops : List WOp
  result : Option Bool
deriving DecidableEq

/-- The trie node of the router:
`type node struct { handler ...; filters []HttpFilter; children map[string]*node }`. -/
inductive Node where
  | mk : Option HandlerSpec → List FilterSpec → List (String × Node) → Node

/-- The `children map[string]*node` mapping of a node, as an association list. -/
abbrev Children := List (String × Node)

def Node.handler : Node → Option HandlerSpec
  | .mk h _ _ => h

def Node.filters : Node → List FilterSpec
  | .mk _ f _ => f

def Node.children : Node → Children
  | .mk _ _ c => c

/-- `n := &node{}; n.children = make(map[string]*node)` — a freshly created node. -/
def newNode : Node := Node.mk none [] []

/-- Go map read `children[path]`: first binding of the key (keys are
unique in any Go map, and every operation here follows the same
first-match discipline). -/
def lookupC : Children → String → Option Node
  | [], _ => none
  | (k, n) :: rest, key => if k = key then some n else lookupC rest key

/-- Go map write `children[path] = n`: replace the first binding of the
key, or append a new binding. -/
def updateChild : Children → String → Node → Children
  | [], key, v => [(key, v)]
  | (k, n) :: rest, key, v =>
      if k = key then (key, v) :: rest else (k, n) :: updateChild rest key v

/-- `strings.HasPrefix(path, ":")` — the token is a dynamic segment. -/
def isDyn (s : String) : Bool :=
  match s.data with
  | c :: _ => c = ':'
  | [] => false

/-- The conflict scan of `registerHandler`:
`for m := range children { if strings.HasPrefix(m, ":") && path != m { panic } }`. -/
def dynConflictAt (cs : Children) (p : String) : Bool :=
  cs.any (fun e => isDyn e.1 && decide (e.1 ≠ p))

/-- The panics `registerHandler` can raise.  `nilHandler` and `nilPath`
are the two explicit `panic(...)` calls (the spec's
`InvalidRegistration`); `dynamicConflict` and `duplicateHandler` are
the two conflict panics (the spec's `RouteConflict`); `nilNodePanic` is
the runtime nil-pointer dereference raised by `n.handler` when the token
loop never bound `n` (every token was empty). -/
inductive RegError where
  | nilHandler
  | nilPath
  | dynamicConflict
  | duplicateHandler
  | nilNodePanic
deriving DecidableEq

/-- Does the error correspond to the spec's `InvalidRegistration` class
(one of the two explicit registration-argument panics)? -/
def RegError.isInvalidRegistration : RegError → Bool
  | .nilHandler => true
  | .nilPath => true
  | _ => false

/-- The token-walking loop of `registerHandler` plus the final handler
installation.  Returns the children mapping as left by the call together
with the panic raised, if any (Go mutates in place, so state reached
before a panic survives it).  Empty tokens are skipped; a dynamic token
is checked against existing dynamic siblings before insertion; the
handler is installed on the node of the last non-empty token, or a
nil-pointer panic is raised if no token was non-empty. -/
def regGo (h : HandlerSpec) (fs : List FilterSpec) : Children → List String → Children × Option RegError
  | cs, [] => (cs, some RegError.nilNodePanic)
  | cs, p :: rest =>
    if p = "" then regGo h fs cs rest
    else if isDyn p && dynConflictAt cs p then (cs, some RegError.dynamicConflict)
    else
      let n := (lookupC cs p).getD newNode
      if rest.all (fun t => decide (t = "")) then
        match n.handler with
        | some _ =>
            -- the node necessarily pre-existed (a fresh node has no
            -- handler), so no insertion happened before this panic
            (cs, some RegError.duplicateHandler)
        | none => (updateChild cs p (Node.mk (some h) fs n.children), none)
      else
        let res := regGo h fs n.children rest
        (updateChild cs p (Node.mk n.handler n.filters res.1), res.2)

/-- `func (r *DynamicRouter) registerHandler(paths []string, handler Handler,
filters ...HttpFilter)` — argument checks, then the token walk.
`handler = none` models a nil Go function value. -/
def registerHandler (root : Children) (paths : List String)
    (handler : Option HandlerSpec) (filters : List FilterSpec) : Children × Option RegError :=
  match handler with
  | none => (root, some RegError.nilHandler)
  | some h =>
    if paths.length < 1 then (root, some RegError.nilPath)
    else regGo h filters root paths

/-- Remove one leading slash: `strings.TrimPrefix(path, "/")` on the
character list. -/
def trimPrefixSlash : List Char → List Char
  | [] => []
  | c :: t => if c = '/' then t else c :: t

/-- Remove one trailing slash: `strings.TrimSuffix(p, "/")` on the
character list. -/
def trimSuffixSlash : List Char → List Char
  | [] => []
  | [c] => if c = '/' then [] else [c]
  | c :: rest => c :: trimSuffixSlash rest

/-- `strings.Split(s, "/")` on the character list: the (always
non-empty) list of chunks between slashes; the empty string yields one
empty chunk. -/
def splitSlash : List Char → List (List Char)
  | [] => [[]]
  | c :: t =>
    if c = '/' then [] :: splitSlash t
    else
      match splitSlash t with
      | [] => [[c]]
      | h :: r => (c :: h) :: r

/-- `func SplitPath(path string) []string` — trim one leading and one
trailing slash, then split on `/`. -/
def SplitPath (path : String) : List String :=
  (splitSlash (trimSuffixSlash (trimPrefixSlash path.data))).map String.mk

/-- The non-empty tokens of a token list (registration skips empty
tokens, so this is the literal path a pattern registers). -/
def elide (ts : List String) : List String :=
  ts.filter (fun t => decide (t ≠ ""))

/-- Failure of `parseTree`.  `unknownPath` is `errors.New("unknown path")`;
`emptyPath` marks the index panic `path[0]` would raise on an empty
token list — unreachable from `ServeHTTP`, because `SplitPath` never
returns an empty list. -/
inductive LookupError where
  | unknownPath
  | emptyPath
deriving DecidableEq

/-- The dynamic-fallback scan of `parseTree`:
`for p, dn := range children { if strings.HasPrefix(p, ":") { n = dn; break } }`.
Modelled as the first dynamic binding in list order; claim C3 shows the
result does not depend on that order in tries built by registration. -/
def findDyn (cs : Children) : Option (String × Node) :=
  cs.find? (fun e => isDyn e.1)

/-- `func parseTree(children map[string]*node, path []string) (*node, error)` —
exact-match lookup with dynamic fallback, recursing while tokens remain. -/
def parseTree : Children → List String → Except LookupError Node
  | _, [] => Except.error LookupError.emptyPath
  | cs, p :: rest =>
    let found :=
      match lookupC cs p with
      | some n => some n
      | none => (findDyn cs).map (fun e => e.2)
    match found with
    | none => Except.error LookupError.unknownPath
    | some n =>
      match rest with
      | [] => Except.ok n
      | _ :: _ => parseTree n.children rest

/-- Address a node of the trie by the exact key path leading to it (used
to state that registration never removes or replaces existing nodes). -/
def getN (cs : Children) : List String → Option Node
  | [] => none
  | k :: ks =>
    match lookupC cs k with
    | none => none
    | some n =>
      match ks with
      | [] => some n
      | _ :: _ => getN n.children ks

/-- The underlying response sink supplied by the transport layer; the
only capability relevant to the claims is whether it implements
`http.Hijacker`. -/
structure Sink where
  supportsHijack : Bool
deriving DecidableEq

/-- `type responseWrapper struct { http.ResponseWriter; http.Hijacker;
status int; body []byte }` — the buffering adapter.  `hijacker` is the
embedded interface value: `some ()` when `ServeHTTP` assigned the
underlying sink's hijacker to it, `none` when it was left nil. -/
structure responseWrapper where
  hijacker : Option Unit
  status : Nat
  body : Bytes
deriving DecidableEq

/-- The wrapper built at the top of `ServeHTTP`:
`w := &responseWrapper{ResponseWriter: res, status: 200, body: []byte{}}`
followed by `if hj, ok := res.(http.Hijacker); ok { w.Hijacker = hj }`. -/
def mkWrapper (s : Sink) : responseWrapper :=
  { hijacker := if s.supportsHijack then some () else none
    status := 200
    body := [] }

/-- `func (w *responseWrapper) WriteHeader(code int) { w.status = code }`. -/
def responseWrapper.WriteHeader (w : responseWrapper) (code : Nat) : responseWrapper :=
  { w with status := code }

/-- `func (w *responseWrapper) Write(body []byte) (int, error)` — replace
the buffered body, report the full length and a nil error. -/
def responseWrapper.Write (w : responseWrapper) (b : Bytes) : responseWrapper × Nat × Option Unit :=
  ({ w with body := b }, b.length, none)

/-- Events the dispatch sends to the underlying response sink. -/
inductive SinkEvent where
  | writeHeader (code : Nat)
  | write (body : Bytes)
deriving DecidableEq

/-- `func (w *responseWrapper) flush()` — transmit the buffered status
and body to the underlying writer. -/
def responseWrapper.flush (w : responseWrapper) : List SinkEvent :=
  [SinkEvent.writeHeader w.status, SinkEvent.write w.body]

/-- In Go, the method set of `*responseWrapper` always contains `Hijack`,
because the struct embeds the `http.Hijacker` interface type; a type
assertion `w.(http.Hijacker)` on the wrapper therefore succeeds whether
or not the embedded field was ever assigned. -/
def hijackCapabilityAdvertised (_ : responseWrapper) : Bool := true

/-- Result of invoking `Hijack` through the wrapper: delegated to the
underlying sink when the embedded field was assigned, a nil-interface
panic when it is nil. -/
inductive HijackOutcome where
  | hijacked
  | nilInterfacePanic
deriving DecidableEq

/-- Calling `w.Hijack()` on the wrapper: the promoted method of the
embedded interface field. -/
def responseWrapper.Hijack (w : responseWrapper) : HijackOutcome :=
  match w.hijacker with
  | some _ => HijackOutcome.hijacked
  | none => HijackOutcome.nilInterfacePanic

/-- Apply one response-writer call to the wrapper state. -/
def applyWOp (w : responseWrapper) : WOp → responseWrapper
  | WOp.writeHeader c => w.WriteHeader c
  | WOp.write b => (w.Write b).1

/-- Apply a handler's or filter's sequence of response-writer calls. -/
def applyOps (w : responseWrapper) (ops : List WOp) : responseWrapper :=
  ops.foldl applyWOp w

/-- The payload of the last `Write` call in a call sequence, if any —
the spec-side characterisation of what the buffer retains. -/
def lastWrite? : List WOp → Option Bytes
  | [] => none
  | WOp.write b :: rest => some ((lastWrite? rest).getD b)
  | WOp.writeHeader _ :: rest => lastWrite? rest

/-- How the filter loop of `ServeHTTP` ended. -/
inductive FiltersOutcome where
  | allTrue
  | shortCircuit
  | panicked
deriving DecidableEq

/-- The filter loop:
`for _, filter := range n.filters { if !filter(w, req) { w.flush(); return } }`.
Returns the wrapper after the filters that ran, the number of filters
that ran, and how the loop ended (a panicking filter aborts it). -/
def runFilters (w : responseWrapper) : List FilterSpec → responseWrapper × Nat × FiltersOutcome
  | [] => (w, 0, FiltersOutcome.allTrue)
  | f :: fs =>
    let w1 := applyOps w f.ops
    match f.result with
    | none => (w1, 1, FiltersOutcome.panicked)
    | some false => (w1, 1, FiltersOutcome.shortCircuit)
    | some true =>
      let r := runFilters w1 fs
      (r.1, r.2.1 + 1, r.2.2)

/-- The cumulative effect on the wrapper of a prefix of the filter chain
when every filter in it passes (used to state claim C4). -/
def foldFilters (w : responseWrapper) (fs : List FilterSpec) : responseWrapper :=
  fs.foldl (fun w g => applyOps w g.ops) w

/-- `type DynamicRouter struct { root map[string]*node; ctx context.Context;
fileServer *customFileServer }`.  The context is an opaque value threaded
into handlers; the file server is abstracted to its presence. -/
structure DynamicRouter where
  root : Children
  ctx : Nat
  hasFileServer : Bool

/-- Everything one call of `ServeHTTP` does that is observable from
outside the router: the events flushed through the wrapper to the
underlying sink, whether the static-file fallback was handed the
original (unwrapped) sink, how many filters ran, whether the handler
ran, and the context value passed to it. -/
structure DispatchResult where
  sinkEvents : List SinkEvent
  fallbackInvoked : Bool
  filtersRun : Nat
  handlerRan : Bool
  ctxPassed : Option Nat
deriving DecidableEq

/-- `func (r *DynamicRouter) ServeHTTP(res http.ResponseWriter, req *http.Request)`:
wrap the sink, look the path up, and either 404/fallback, run the
filter chain and handler, or silently do nothing on a handler-less
node.  The deferred `recover` is modelled by the `panicked` branches:
a panic from a filter or from the handler forces the buffered status to
500 and flushes, and is not propagated (this function is total). -/
def serveHTTP (r : DynamicRouter) (s : Sink) (reqPath : String) : DispatchResult :=
  let w := mkWrapper s
  match parseTree r.root (SplitPath reqPath) with
  | Except.error _ =>
    if r.hasFileServer then
      { sinkEvents := [], fallbackInvoked := true, filtersRun := 0
        handlerRan := false, ctxPassed := none }
    else
      { sinkEvents := (w.WriteHeader 404).flush, fallbackInvoked := false
        filtersRun := 0, handlerRan := false, ctxPassed := none }
  | Except.ok n =>
    match n.handler with
    | none =>
      { sinkEvents := [], fallbackInvoked := false, filtersRun := 0
        handlerRan := false, ctxPassed := none }
    | some h =>
      let fr := runFilters w n.filters
      match fr.2.2 with
      | FiltersOutcome.panicked =>
        { sinkEvents := (fr.1.WriteHeader 500).flush, fallbackInvoked := false
          filtersRun := fr.2.1, handlerRan := false, ctxPassed := none }
      | FiltersOutcome.shortCircuit =>
        { sinkEvents := fr.1.flush, fallbackInvoked := false
          filtersRun := fr.2.1, handlerRan := false, ctxPassed := none }
      | FiltersOutcome.allTrue =>
        let w2 := applyOps fr.1 h.ops
        if h.panics then
          { sinkEvents := (w2.WriteHeader 500).flush, fallbackInvoked := false
            filtersRun := fr.2.1, handlerRan := true, ctxPassed := some r.ctx }
        else
          { sinkEvents := w2.flush, fallbackInvoked := false
            filtersRun := fr.2.1, handlerRan := true, ctxPassed := some r.ctx }

/-- Number of dynamic-keyed children of a level. -/
def dynCount (cs : Children) : Nat :=
  (cs.filter (fun e => isDyn e.1)).length

/-- The §4.2 invariant, trie-wide: every level of the subtree rooted at
this node holds at most one dynamic child. -/
inductive DynOK : Node → Prop where
  | intro {h : Option HandlerSpec} {f : List FilterSpec} {cs : Children} :
      dynCount cs ≤ 1 → (∀ e, e ∈ cs → DynOK e.2) → DynOK (Node.mk h f cs)

/-- The invariant for a children mapping (the router root or any
`children` field). -/
def ChildrenDynOK (cs : Children) : Prop :=
  dynCount cs ≤ 1 ∧ ∀ e, e ∈ cs → DynOK e.2

/-- `cs'` keeps every node `cs` had, at the same address, with any
present handler unchanged — "registration never removes or replaces". -/
def Preserves (cs cs' : Children) : Prop :=
  ∀ ks n0, getN cs ks = some n0 →
    ∃ n1, getN cs' ks = some n1 ∧ ∀ h0, n0.handler = some h0 → n1.handler = some h0

/-- Concrete handler used to instantiate theorems: writes status 200 and
a two-byte body, returns normally. -/
def hA : HandlerSpec := ⟨[WOp.writeHeader 200, WOp.write [1, 2]], false⟩

/-- Concrete handler that writes status 200 and a body, then panics. -/
def hPanic : HandlerSpec := ⟨[WOp.writeHeader 200, WOp.write [7]], true⟩

/-- Concrete handler that writes twice and returns normally. -/
def hTwoWrites : HandlerSpec := ⟨[WOp.write [1], WOp.writeHeader 200, WOp.write [9]], false⟩

/-- Concrete filter that passes. -/
def fTrue : FilterSpec := ⟨[], some true⟩

/-- Concrete filter that writes status 401 and rejects. -/
def f401 : FilterSpec := ⟨[WOp.writeHeader 401], some false⟩

/-- Concrete filter after a rejecting one; its status write must never
reach the sink. -/
def fAfter : FilterSpec := ⟨[WOp.writeHeader 999], some true⟩

/-- An underlying sink without the hijack capability. -/
def sPlain : Sink := ⟨false⟩

/-- An underlying sink with the hijack capability. -/
def sHijack : Sink := ⟨true⟩

/-- Concrete router for the C2 witness: one route whose handler panics. -/
def rPanic : DynamicRouter :=
  { root := (registerHandler [] (SplitPath "/t") (some hPanic) []).1
    ctx := 0
    hasFileServer := false }

/-- Concrete router for the C4 witness: a passing filter, a rejecting
401 filter, then a filter that must never run. -/
def rFilters : DynamicRouter :=
  { root := (registerHandler [] (SplitPath "/t") (some hA) [fTrue, f401, fAfter]).1
    ctx := 3
    hasFileServer := false }

/-- Concrete router for the C4 witness all-pass case. -/
def rAllPass : DynamicRouter :=
  { root := (registerHandler [] (SplitPath "/u") (some hA) [fTrue]).1
    ctx := 4
    hasFileServer := false }

/-- Concrete router for the C10 witness: a handler that writes twice. -/
def rTwoWrites : DynamicRouter :=
  { root := (registerHandler [] (SplitPath "/w") (some hTwoWrites) []).1
    ctx := 0
    hasFileServer := false }

/-! Association-list (Go map) helper lemmas. -/

theorem lookupC_updateChild_self (cs : Children) (p : String) (v : Node) :
    lookupC (updateChild cs p v) p = some v := by
  induction cs with
  | nil => simp [updateChild, lookupC]
  | cons e rest ih =>
    obtain ⟨k, n⟩ := e
    by_cases hk : k = p
    · simp [updateChild, hk, lookupC]
    · simp [updateChild, hk, lookupC, ih]

theorem lookupC_updateChild_ne (cs : Children) (p k : String) (v : Node) (hk : k ≠ p) :
    lookupC (updateChild cs p v) k = lookupC cs k := by
  induction cs with
  | nil => simp [updateChild, lookupC, Ne.symm hk]
  | cons e rest ih =>
    obtain ⟨k', n⟩ := e
    by_cases hk' : k' = p
    · subst hk'
      simp [updateChild, lookupC, Ne.symm hk]
    · simp [updateChild, hk', lookupC, ih]

theorem updateChild_of_lookupC_none (cs : Children) (p : String) (v : Node)
    (h : lookupC cs p = none) : updateChild cs p v = cs ++ [(p, v)] := by
  induction cs with
  | nil => simp [updateChild]
  | cons e rest ih =>
    obtain ⟨k, n⟩ := e
    by_cases hk : k = p
    · simp [lookupC, hk] at h
    · simp [lookupC, hk] at h
      simp [updateChild, hk, ih h]

theorem mem_updateChild {cs : Children} {p : String} {v : Node} {e : String × Node}
    (h : e ∈ updateChild cs p v) : e ∈ cs ∨ e = (p, v) := by
  induction cs with
  | nil => simpa [updateChild] using h
  | cons e' rest ih =>
    obtain ⟨k, n⟩ := e'
    by_cases hk : k = p
    · simp [updateChild, hk] at h
      rcases h with h | h
      · right; simp [h]
      · left; simp [h]
    · simp [updateChild, hk] at h
      rcases h with h | h
      · left; simp [h]
      · rcases ih h with h' | h'
        · left; simp [h']
        · right; exact h'

theorem dynConflictAt_updateChild (cs : Children) (p : String) (v : Node) :
    dynConflictAt (updateChild cs p v) p = dynConflictAt cs p := by
  induction cs with
  | nil => simp [updateChild, dynConflictAt]
  | cons e rest ih =>
    obtain ⟨k, n⟩ := e
    by_cases hk : k = p
    · subst hk
      simp [updateChild, dynConflictAt]
    · simp only [updateChild, if_neg hk, dynConflictAt, List.any_cons] at ih ⊢
      rw [ih]

theorem lookupC_none_key_ne {cs : Children} {p : String} (h : lookupC cs p = none) :
    ∀ e ∈ cs, e.1 ≠ p := by
  induction cs with
  | nil => simp
  | cons e' rest ih =>
    obtain ⟨k, n⟩ := e'
    by_cases hk : k = p
    · simp [lookupC, hk] at h
    · simp [lookupC, hk] at h
      intro e he
      rcases List.mem_cons.mp he with h' | h'
      · subst h'; exact hk
      · exact ih h e h'

theorem lookupC_isSome_updateChild_of_some {cs : Children} {p : String} {n v : Node}
    (hp : lookupC cs p = some n) (k : String) :
    (lookupC (updateChild cs p v) k).isSome = (lookupC cs k).isSome := by
  by_cases hk : k = p
  · subst hk
    simp [lookupC_updateChild_self, hp]
  · simp [lookupC_updateChild_ne cs p k v hk]

/-! Token-elision helper lemmas. -/

theorem all_empty_iff_elide_nil (ts : List String) :
    (ts.all (fun t => decide (t = "")) = true) ↔ elide ts = [] := by
  simp [List.all_eq_true, elide, List.filter_eq_nil_iff]

theorem elide_cons_empty (rest : List String) : elide ("" :: rest) = elide rest := by
  simp [elide]

theorem elide_cons_ne {p : String} (rest : List String) (hp : p ≠ "") :
    elide (p :: rest) = p :: elide rest := by
  simp [elide, hp]

/-! Lookup unfolding helpers. -/

theorem parseTree_cons_found {cs : Children} {p : String} {n : Node}
    (hl : lookupC cs p = some n) (q : String) (qs : List String) :
    parseTree cs (p :: q :: qs) = parseTree n.children (q :: qs) := by
  simp [parseTree, hl]

theorem parseTree_singleton_found {cs : Children} {p : String} {n : Node}
    (hl : lookupC cs p = some n) :
    parseTree cs [p] = Except.ok n := by
  simp [parseTree, hl]

/-! Registration followed by lookup of the same literal path (claim C1 core). -/

theorem regGo_ok_parseTree (h : HandlerSpec) (fs : List FilterSpec) :
    ∀ (ts : List String) (cs cs' : Children),
      regGo h fs cs ts = (cs', none) → elide ts ≠ [] →
      ∃ n, parseTree cs' (elide ts) = Except.ok n ∧ n.handler = some h ∧ n.filters = fs := by
  intro ts
  induction ts with
  | nil =>
    intro cs cs' hreg _
    simp [regGo] at hreg
  | cons p rest ih =>
    intro cs cs' hreg hne
    by_cases hp : p = ""
    · subst hp
      rw [show regGo h fs cs ("" :: rest) = regGo h fs cs rest from by simp [regGo]] at hreg
      rw [elide_cons_empty] at hne ⊢
      exact ih cs cs' hreg hne
    · rw [elide_cons_ne rest hp] at hne ⊢
      simp only [regGo, if_neg hp] at hreg
      split at hreg
      · simp at hreg
      · split at hreg
        next hall =>
          split at hreg
          · simp at hreg
          next hnone =>
            obtain ⟨rfl, -⟩ : updateChild cs p
                (Node.mk (some h) fs ((lookupC cs p).getD newNode).children) = cs' ∧ True := by
              simpa using hreg
            have hrest : elide rest = [] := (all_empty_iff_elide_nil rest).mp hall
            rw [hrest]
            refine ⟨Node.mk (some h) fs ((lookupC cs p).getD newNode).children, ?_, rfl, rfl⟩
            simp [parseTree, lookupC_updateChild_self]
        next hall =>
          rcases hres : regGo h fs ((lookupC cs p).getD newNode).children rest with ⟨gcs, err⟩
          rw [hres] at hreg
          obtain ⟨rfl, rfl⟩ : updateChild cs p
              (Node.mk ((lookupC cs p).getD newNode).handler
                ((lookupC cs p).getD newNode).filters gcs) = cs' ∧ err = none := by
            simpa using hreg
          have hne' : elide rest ≠ [] := by
            intro hcontra
            exact hall ((all_empty_iff_elide_nil rest).mpr hcontra)
          obtain ⟨nd, hpt, hh, hf⟩ := ih _ gcs hres hne'
          refine ⟨nd, ?_, hh, hf⟩
          rcases hq : elide rest with - | ⟨q, qs⟩
          · exact absurd hq hne'
          · rw [hq] at hpt
            rw [parseTree_cons_found (lookupC_updateChild_self cs p _) q qs]
            simpa [Node.children] using hpt

/-- C1: for every pattern string whose token sequence (after eliding
empty tokens) is non-empty and every non-nil handler, if registration of
that pattern with that handler succeeds, then looking up the same
literal path (the pattern with empty tokens elided) returns the node on
which that handler was installed. -/
theorem routeC1 (root : Children) (pattern : String) (h : HandlerSpec)
    (fs : List FilterSpec) (root' : Children)
    (hne : elide (SplitPath pattern) ≠ [])
    (hreg : registerHandler root (SplitPath pattern) (some h) fs = (root', none)) :
    ∃ n, parseTree root' (elide (SplitPath pattern)) = Except.ok n ∧
      n.handler = some h ∧ n.filters = fs := by
  have hgo : regGo h fs root (SplitPath pattern) = (root', none) := by
    by_cases hl : (SplitPath pattern).length < 1
    · simp [registerHandler, hl] at hreg
    · simpa [registerHandler, hl] using hreg
  exact regGo_ok_parseTree h fs _ root root' hgo hne

/-- Witness for C1 at a concrete pattern and handler. -/
theorem routeC1_witness :
    ∃ n, parseTree (registerHandler [] (SplitPath "/a/b") (some hA) []).1
        (elide (SplitPath "/a/b")) = Except.ok n ∧ n.handler = some hA ∧ n.filters = [] :=
  routeC1 [] "/a/b" hA [] (registerHandler [] (SplitPath "/a/b") (some hA) []).1
    (by decide) rfl

/-- A second walk over the exact token list of a previously successful
walk panics at the terminal handler check (claim C6 core). -/
theorem regGo_second_duplicate (h h2 : HandlerSpec) (fs fs2 : List FilterSpec) :
    ∀ (ts : List String) (cs cs' : Children),
      regGo h fs cs ts = (cs', none) →
      (regGo h2 fs2 cs' ts).2 = some RegError.duplicateHandler := by
  intro ts
  induction ts with
  | nil =>
    intro cs cs' hreg
    simp [regGo] at hreg
  | cons p rest ih =>
    intro cs cs' hreg
    by_cases hp : p = ""
    · subst hp
      rw [show regGo h fs cs ("" :: rest) = regGo h fs cs rest from by simp [regGo]] at hreg
      rw [show regGo h2 fs2 cs' ("" :: rest) = regGo h2 fs2 cs' rest from by simp [regGo]]
      exact ih cs cs' hreg
    · simp only [regGo, if_neg hp] at hreg ⊢
      split at hreg
      · simp at hreg
      next hndc =>
        split at hreg
        next hall =>
          split at hreg
          · simp at hreg
          next hnone =>
            obtain rfl : updateChild cs p
                (Node.mk (some h) fs ((lookupC cs p).getD newNode).children) = cs' := by
              simpa using hreg
            rw [dynConflictAt_updateChild, if_neg hndc, lookupC_updateChild_self]
            simp [Node.handler, hall]
        next hall =>
          rcases hres : regGo h fs ((lookupC cs p).getD newNode).children rest with ⟨gcs, err⟩
          rw [hres] at hreg
          obtain ⟨rfl, rfl⟩ : updateChild cs p
              (Node.mk ((lookupC cs p).getD newNode).handler
                ((lookupC cs p).getD newNode).filters gcs) = cs' ∧ err = none := by
            simpa using hreg
          rw [dynConflictAt_updateChild, if_neg hndc, lookupC_updateChild_self]
          simp only [Option.getD_some, Node.handler, Node.filters, Node.children, if_neg hall]
          exact ih _ gcs hres

theorem preserves_refl (cs : Children) : Preserves cs cs :=
  fun _ n0 hget => ⟨n0, hget, fun _ hh => hh⟩

theorem getN_singleton (cs : Children) (k : String) : getN cs [k] = lookupC cs k := by
  cases hl : lookupC cs k <;> simp [getN, hl]

theorem getN_cons_cons {cs : Children} {k : String} {n : Node}
    (hl : lookupC cs k = some n) (k2 : String) (ks2 : List String) :
    getN cs (k :: k2 :: ks2) = getN n.children (k2 :: ks2) := by
  simp [getN, hl]

theorem getN_cons_none {cs : Children} {k : String}
    (hl : lookupC cs k = none) (ks : List String) :
    getN cs (k :: ks) = none := by
  cases ks <;> simp [getN, hl]

theorem preserves_update_new {cs : Children} {p : String}
    (hl : lookupC cs p = none) (v : Node) :
    Preserves cs (updateChild cs p v) := by
  intro ks n0 hget
  cases ks with
  | nil => cases hget
  | cons k ks' =>
    by_cases hk : k = p
    · subst hk
      rw [getN_cons_none hl] at hget
      cases hget
    · refine ⟨n0, ?_, fun _ hh => hh⟩
      cases ks' with
      | nil =>
        rw [getN_singleton, lookupC_updateChild_ne cs p k v hk, ← getN_singleton]
        exact hget
      | cons k2 ks2 =>
        cases hl2 : lookupC cs k with
        | none =>
          rw [getN_cons_none hl2] at hget
          cases hget
        | some n1 =>
          rw [getN_cons_cons hl2] at hget
          have hl2' : lookupC (updateChild cs p v) k = some n1 := by
            rw [lookupC_updateChild_ne cs p k v hk]; exact hl2
          rw [getN_cons_cons hl2']
          exact hget

theorem preserves_update_deep {cs : Children} {p : String} {n1 : Node}
    (hl : lookupC cs p = some n1) {v : Node}
    (hhandler : ∀ h0, n1.handler = some h0 → v.handler = some h0)
    (hchild : Preserves n1.children v.children) :
    Preserves cs (updateChild cs p v) := by
  intro ks n0 hget
  cases ks with
  | nil => cases hget
  | cons k ks' =>
    by_cases hk : k = p
    · subst hk
      cases ks' with
      | nil =>
        rw [getN_singleton, hl] at hget
        obtain rfl : n1 = n0 := by simpa using hget
        refine ⟨v, ?_, hhandler⟩
        rw [getN_singleton]
        exact lookupC_updateChild_self cs k v
      | cons k2 ks2 =>
        rw [getN_cons_cons hl] at hget
        obtain ⟨nn, hnn, hh⟩ := hchild (k2 :: ks2) n0 hget
        refine ⟨nn, ?_, hh⟩
        rw [getN_cons_cons (lookupC_updateChild_self cs k v) k2 ks2]
        exact hnn
    · refine ⟨n0, ?_, fun _ hh => hh⟩
      cases ks' with
      | nil =>
        rw [getN_singleton, lookupC_updateChild_ne cs p k v hk, ← getN_singleton]
        exact hget
      | cons k2 ks2 =>
        cases hl2 : lookupC cs k with
        | none =>
          rw [getN_cons_none hl2] at hget
          cases hget
        | some nx =>
          rw [getN_cons_cons hl2] at hget
          have hl2' : lookupC (updateChild cs p v) k = some nx := by
            rw [lookupC_updateChild_ne cs p k v hk]; exact hl2
          rw [getN_cons_cons hl2']
          exact hget

/-- The registration walk never removes an existing node and never
changes a handler that is already present, on every control path
(success or panic). -/
theorem regGo_preserves (h : HandlerSpec) (fs : List FilterSpec) :
    ∀ (ts : List String) (cs : Children), Preserves cs (regGo h fs cs ts).1 := by
  intro ts
  induction ts with
  | nil =>
    intro cs
    exact preserves_refl cs
  | cons p rest ih =>
    intro cs
    by_cases hp : p = ""
    · subst hp
      rw [show regGo h fs cs ("" :: rest) = regGo h fs cs rest from by simp [regGo]]
      exact ih cs
    · simp only [regGo, if_neg hp]
      split
      · exact preserves_refl cs
      next hndc =>
        split
        next hall =>
          split
          · exact preserves_refl cs
          next hnone =>
            cases hl : lookupC cs p with
            | none => exact preserves_update_new hl _
            | some n1 =>
              refine preserves_update_deep hl ?_ ?_
              · intro h0 hh0
                rw [hl, Option.getD_some] at hnone
                rw [hnone] at hh0
                cases hh0
              · exact preserves_refl n1.children
        next hall =>
          cases hl : lookupC cs p with
          | none => exact preserves_update_new hl _
          | some n1 =>
            refine preserves_update_deep hl ?_ ?_
            · intro h0 hh0
              exact hh0
            · exact ih n1.children

/-- C6: registering the same exact path twice fails with RouteConflict
(the duplicate-handler panic) on the second call, because the terminal
node already has a handler; and registration never removes or replaces
an existing handler or child node of the trie, on any control path. -/
theorem routeC6 :
    (∀ (root : Children) (ts : List String) (h h2 : HandlerSpec)
        (fs fs2 : List FilterSpec) (root' : Children),
      registerHandler root ts (some h) fs = (root', none) →
      (registerHandler root' ts (some h2) fs2).2 = some RegError.duplicateHandler)
    ∧
    (∀ (root : Children) (ts : List String) (handler : Option HandlerSpec)
        (fs : List FilterSpec),
      Preserves root (registerHandler root ts handler fs).1) := by
  constructor
  · intro root ts h h2 fs fs2 root' hreg
    by_cases hl : ts.length < 1
    · simp [registerHandler, hl] at hreg
    · simp only [registerHandler, if_neg hl] at hreg ⊢
      exact regGo_second_duplicate h h2 fs fs2 ts root root' hreg
  · intro root ts handler fs
    cases handler with
    | none => exact preserves_refl root
    | some h =>
      by_cases hl : ts.length < 1
      · simp only [registerHandler, if_pos hl]
        exact preserves_refl root
      · simp only [registerHandler, if_neg hl]
        exact regGo_preserves h fs ts root

/-- Witness for C6: a concrete duplicate registration fails, and a
concrete registration into a trie with an existing node keeps that node
and its handler. -/
theorem routeC6_witness :
    ((registerHandler (registerHandler [] (SplitPath "/x") (some hA) []).1
        (SplitPath "/x") (some hPanic) []).2 = some RegError.duplicateHandler)
    ∧ (∃ n1, getN (registerHandler [("x", Node.mk (some hA) [] [])]
          (SplitPath "/x/y") (some hPanic) []).1 ["x"] = some n1
        ∧ ∀ h0, (Node.mk (some hA) [] []).handler = some h0 → n1.handler = some h0) :=
  ⟨routeC6.1 [] (SplitPath "/x") hA hPanic [] [] _ rfl,
   routeC6.2 [("x", Node.mk (some hA) [] [])] (SplitPath "/x/y") (some hPanic) []
     ["x"] (Node.mk (some hA) [] []) rfl⟩

/-! Dynamic-child counting lemmas (claim C3). -/

theorem lookupC_some_mem {cs : Children} {p : String} {n : Node}
    (hl : lookupC cs p = some n) : (p, n) ∈ cs := by
  induction cs with
  | nil => cases hl
  | cons e rest ih =>
    obtain ⟨k, nk⟩ := e
    by_cases hk : k = p
    · subst hk
      simp [lookupC] at hl
      simp [hl]
    · simp [lookupC, hk] at hl
      exact List.mem_cons_of_mem _ (ih hl)

theorem dynCount_cons (e : String × Node) (rest : Children) :
    dynCount (e :: rest) = (if isDyn e.1 then 1 else 0) + dynCount rest := by
  by_cases hd : isDyn e.1
  · simp [dynCount, List.filter_cons, hd, Nat.add_comm]
  · simp [dynCount, List.filter_cons, hd]

theorem dynCount_updateChild_some {cs : Children} {p : String} {n : Node}
    (hl : lookupC cs p = some n) (v : Node) :
    dynCount (updateChild cs p v) = dynCount cs := by
  induction cs with
  | nil => cases hl
  | cons e rest ih =>
    obtain ⟨k, nk⟩ := e
    by_cases hk : k = p
    · subst hk
      rw [show updateChild ((k, nk) :: rest) k v = (k, v) :: rest from by
        simp [updateChild]]
      rw [dynCount_cons, dynCount_cons]
    · simp only [lookupC, if_neg hk] at hl
      rw [show updateChild ((k, nk) :: rest) p v = (k, nk) :: updateChild rest p v from by
        simp [updateChild, hk]]
      rw [dynCount_cons, dynCount_cons, ih hl]

theorem dynCount_updateChild_none {cs : Children} {p : String}
    (hl : lookupC cs p = none) (v : Node) :
    dynCount (updateChild cs p v) = dynCount cs + (if isDyn p then 1 else 0) := by
  rw [updateChild_of_lookupC_none cs p v hl]
  by_cases hd : isDyn p <;>
    simp [dynCount, List.filter_append, List.filter_cons, hd]

theorem dynCount_eq_zero_of_no_conflict {cs : Children} {p : String}
    (hdc : dynConflictAt cs p = false) (hl : lookupC cs p = none) :
    dynCount cs = 0 := by
  have h1 : ∀ e ∈ cs, ¬(isDyn e.1 && decide (e.1 ≠ p)) = true := by
    simpa [dynConflictAt, List.any_eq_false] using hdc
  have h2 := lookupC_none_key_ne hl
  rw [dynCount, List.length_eq_zero, List.filter_eq_nil_iff]
  intro e he
  have := h1 e he
  have hne := h2 e he
  simp [hne] at this
  simp [this]

theorem DynOK.childrenOK {n : Node} (hd : DynOK n) : ChildrenDynOK n.children := by
  cases hd with
  | intro hcount hmem => exact ⟨hcount, hmem⟩

theorem childrenDynOK_update {cs : Children} {p : String} {v : Node}
    (hOK : ChildrenDynOK cs) (hv : DynOK v)
    (hcount : dynCount (updateChild cs p v) ≤ 1) :
    ChildrenDynOK (updateChild cs p v) := by
  refine ⟨hcount, fun e he => ?_⟩
  rcases mem_updateChild he with h' | h'
  · exact hOK.2 e h'
  · rw [h']
    exact hv

theorem newNode_dynOK : DynOK newNode := by
  refine DynOK.intro ?_ ?_
  · simp [dynCount]
  · intro e he
    cases he

/-- Registration preserves the at-most-one-dynamic-child invariant at
every level, on every control path. -/
theorem regGo_dynOK (h : HandlerSpec) (fs : List FilterSpec) :
    ∀ (ts : List String) (cs : Children),
      ChildrenDynOK cs → ChildrenDynOK (regGo h fs cs ts).1 := by
  intro ts
  induction ts with
  | nil =>
    intro cs hOK
    exact hOK
  | cons p rest ih =>
    intro cs hOK
    by_cases hp : p = ""
    · subst hp
      rw [show regGo h fs cs ("" :: rest) = regGo h fs cs rest from by simp [regGo]]
      exact ih cs hOK
    · simp only [regGo, if_neg hp]
      split
      · exact hOK
      next hndc =>
        have hcnt : ∀ v : Node, dynCount (updateChild cs p v) ≤ 1 := by
          intro v
          cases hl : lookupC cs p with
          | some n1 =>
            rw [dynCount_updateChild_some hl]
            exact hOK.1
          | none =>
            rw [dynCount_updateChild_none hl]
            by_cases hd : isDyn p
            · have hdc : dynConflictAt cs p = false := by
                cases hdc : dynConflictAt cs p with
                | false => rfl
                | true => exact absurd (by simp [hd, hdc]) hndc
              rw [dynCount_eq_zero_of_no_conflict hdc hl]
              simp [hd]
            · simpa [hd] using hOK.1
        split
        next hall =>
          split
          · exact hOK
          next hnone =>
            cases hl : lookupC cs p with
            | none =>
              refine childrenDynOK_update hOK ?_ (hcnt _)
              refine DynOK.intro ?_ ?_
              · simp [newNode, Node.children, dynCount]
              · intro e he
                simp [newNode, Node.children] at he
            | some n1 =>
              refine childrenDynOK_update hOK ?_ (hcnt _)
              have hsub := (hOK.2 (p, n1) (lookupC_some_mem hl)).childrenOK
              exact DynOK.intro hsub.1 hsub.2
        next hall =>
          cases hl : lookupC cs p with
          | none =>
            refine childrenDynOK_update hOK ?_ (hcnt _)
            have hsub : ChildrenDynOK (regGo h fs (newNode).children rest).1 := by
              refine ih _ ?_
              constructor
              · simp [newNode, Node.children, dynCount]
              · intro e he
                simp [newNode, Node.children] at he
            exact DynOK.intro hsub.1 hsub.2
          | some n1 =>
            refine childrenDynOK_update hOK ?_ (hcnt _)
            have hsub : ChildrenDynOK (regGo h fs n1.children rest).1 :=
              ih _ (hOK.2 (p, n1) (lookupC_some_mem hl)).childrenOK
            exact DynOK.intro hsub.1 hsub.2

theorem find?_eq_head?_filterList {α : Type} (l : List α) (p : α → Bool) :
    l.find? p = (l.filter p).head? := by
  induction l with
  | nil => rfl
  | cons a t ih =>
    by_cases hp : p a
    · rw [List.find?_cons_of_pos _ hp, List.filter_cons_of_pos hp, List.head?_cons]
    · rw [List.find?_cons_of_neg _ hp, List.filter_cons_of_neg hp, ih]

theorem perm_eq_of_length_le_one {α : Type} {l l' : List α}
    (hperm : l.Perm l') (hlen : l.length ≤ 1) : l = l' := by
  cases l with
  | nil =>
    have := hperm.nil_eq
    simp [this]
  | cons a t =>
    cases t with
    | nil => exact (List.perm_singleton.mp hperm.symm).symm
    | cons b t2 => simp at hlen

/-- The dynamic-fallback scan yields the same entry however the Go map
iterates its children, as long as at most one dynamic child exists. -/
theorem findDyn_perm {cs cs' : Children} (hperm : cs.Perm cs')
    (hcount : dynCount cs ≤ 1) : findDyn cs = findDyn cs' := by
  rw [findDyn, findDyn, find?_eq_head?_filterList, find?_eq_head?_filterList]
  rw [perm_eq_of_length_le_one (hperm.filter _) hcount]

theorem isDyn_ne_empty {p : String} (hd : isDyn p = true) : p ≠ "" := by
  intro heq
  subst heq
  cases hd

/-- C3: every registration preserves the invariant that at most one
dynamic-segment child exists among the children of any single node:
registering a dynamic token at a level that already holds a dynamic
child with a different literal token text fails with RouteConflict,
while registering the identical dynamic name reuses the existing node
(the key set of that level is unchanged); consequently the lookup
engine's dynamic fallback is deterministic regardless of children-map
iteration order. -/
theorem routeC3 :
    (∀ (h : HandlerSpec) (fs : List FilterSpec) (cs : Children) (p : String)
        (rest : List String) (m : String) (nm : Node),
      isDyn p = true → (m, nm) ∈ cs → isDyn m = true → m ≠ p →
      regGo h fs cs (p :: rest) = (cs, some RegError.dynamicConflict))
    ∧
    (∀ (h : HandlerSpec) (fs : List FilterSpec) (cs : Children) (p : String)
        (rest : List String) (n : Node),
      isDyn p = true → lookupC cs p = some n →
      ∀ k, (lookupC (regGo h fs cs (p :: rest)).1 k).isSome = (lookupC cs k).isSome)
    ∧
    (∀ (root : Children) (ts : List String) (handler : Option HandlerSpec)
        (fs : List FilterSpec),
      ChildrenDynOK root → ChildrenDynOK (registerHandler root ts handler fs).1)
    ∧
    (∀ (cs cs' : Children), cs.Perm cs' → dynCount cs ≤ 1 → findDyn cs = findDyn cs') := by
  refine ⟨?_, ?_, ?_, ?_⟩
  · intro h fs cs p rest m nm hdp hmem hdm hne
    have hp : p ≠ "" := isDyn_ne_empty hdp
    have hconf : dynConflictAt cs p = true := by
      refine List.any_eq_true.mpr ⟨(m, nm), hmem, ?_⟩
      simp [hdm, hne]
    simp [regGo, hp, hdp, hconf]
  · intro h fs cs p rest n hdp hl k
    have hp : p ≠ "" := isDyn_ne_empty hdp
    simp only [regGo, if_neg hp]
    split
    · rfl
    next hndc =>
      split
      next hall =>
        split
        · rfl
        next hnone =>
          exact lookupC_isSome_updateChild_of_some hl k
      next hall =>
        exact lookupC_isSome_updateChild_of_some hl k
  · intro root ts handler fs hOK
    cases handler with
    | none => exact hOK
    | some h =>
      by_cases hl : ts.length < 1
      · simpa [registerHandler, hl] using hOK
      · simp only [registerHandler, if_neg hl]
        exact regGo_dynOK h fs ts root hOK
  · intro cs cs' hperm hcount
    exact findDyn_perm hperm hcount

/-- Witness for C3 at concrete levels and tries. -/
theorem routeC3_witness :
    (regGo hA [] [(":a", newNode)] [":b"] = ([(":a", newNode)], some RegError.dynamicConflict))
    ∧ ((lookupC (regGo hA [] [(":a", Node.mk (some hA) [] [])] [":a", "x"]).1 ":a").isSome
        = (lookupC [(":a", Node.mk (some hA) [] [])] ":a").isSome)
    ∧ ChildrenDynOK (registerHandler [] (SplitPath "/t/:id") (some hA) []).1
    ∧ findDyn [("a", newNode), (":b", newNode)] = findDyn [(":b", newNode), ("a", newNode)] :=
  ⟨routeC3.1 hA [] [(":a", newNode)] ":b" [] ":a" newNode (by decide)
      (List.mem_singleton.mpr rfl) (by decide) (by decide),
   routeC3.2.1 hA [] [(":a", Node.mk (some hA) [] [])] ":a" ["x"]
      (Node.mk (some hA) [] []) (by decide) rfl ":a",
   routeC3.2.2.1 [] (SplitPath "/t/:id") (some hA) []
      ⟨by decide, fun e he => absurd he (List.not_mem_nil e)⟩,
   routeC3.2.2.2 _ _ (List.Perm.swap _ _ _) (by decide)⟩

/-! Filter-chain lemmas (claims C2 and C4). -/

theorem runFilters_all_true :
    ∀ (fs : List FilterSpec) (w : responseWrapper),
      (∀ g ∈ fs, g.result = some true) →
      runFilters w fs = (foldFilters w fs, fs.length, FiltersOutcome.allTrue) := by
  intro fs
  induction fs with
  | nil =>
    intro w _
    simp [runFilters, foldFilters]
  | cons f fs ih =>
    intro w hall
    have hf : f.result = some true := hall f (List.mem_cons_self f fs)
    have hrest : ∀ g ∈ fs, g.result = some true :=
      fun g hg => hall g (List.mem_cons_of_mem f hg)
    simp [runFilters, hf, ih (applyOps w f.ops) hrest, foldFilters]

theorem runFilters_short_circuit :
    ∀ (fs1 : List FilterSpec) (f : FilterSpec) (fs2 : List FilterSpec) (w : responseWrapper),
      (∀ g ∈ fs1, g.result = some true) → f.result = some false →
      runFilters w (fs1 ++ f :: fs2)
        = (applyOps (foldFilters w fs1) f.ops, fs1.length + 1, FiltersOutcome.shortCircuit) := by
  intro fs1
  induction fs1 with
  | nil =>
    intro f fs2 w _ hf
    simp [runFilters, hf, foldFilters]
  | cons g gs ih =>
    intro f fs2 w hall hf
    have hg : g.result = some true := hall g (List.mem_cons_self g gs)
    have hrest : ∀ x ∈ gs, x.result = some true :=
      fun x hx => hall x (List.mem_cons_of_mem g hx)
    simp [runFilters, hg, ih f fs2 (applyOps w g.ops) hrest hf, foldFilters]

/-- C2: for every request whose dispatch reaches a filter or handler
that panics — including a handler that first writes status 200 and a
body — the panic is intercepted inside ServeHTTP (the dispatch still
returns a result), the buffered status is overwritten to 500, the
buffered (possibly partial) body is flushed to the underlying sink, and
the observed status is 500, never the previously buffered status. -/
theorem routeC2 (r : DynamicRouter) (s : Sink) (path : String) (n : Node) (h : HandlerSpec)
    (hn : parseTree r.root (SplitPath path) = Except.ok n)
    (hh : n.handler = some h) :
    ((runFilters (mkWrapper s) n.filters).2.2 = FiltersOutcome.panicked →
      serveHTTP r s path =
        { sinkEvents := [SinkEvent.writeHeader 500,
            SinkEvent.write (runFilters (mkWrapper s) n.filters).1.body]
          fallbackInvoked := false
          filtersRun := (runFilters (mkWrapper s) n.filters).2.1
          handlerRan := false, ctxPassed := none })
    ∧ ((runFilters (mkWrapper s) n.filters).2.2 = FiltersOutcome.allTrue → h.panics = true →
      serveHTTP r s path =
        { sinkEvents := [SinkEvent.writeHeader 500,
            SinkEvent.write (applyOps (runFilters (mkWrapper s) n.filters).1 h.ops).body]
          fallbackInvoked := false
          filtersRun := (runFilters (mkWrapper s) n.filters).2.1
          handlerRan := true, ctxPassed := some r.ctx }) := by
  rcases hF : runFilters (mkWrapper s) n.filters with ⟨w1, kf, o⟩
  constructor
  · intro ho
    have ho' : o = FiltersOutcome.panicked := ho
    subst ho'
    simp [serveHTTP, hn, hh, hF, responseWrapper.flush, responseWrapper.WriteHeader]
  · intro ho hp
    have ho' : o = FiltersOutcome.allTrue := ho
    subst ho'
    simp [serveHTTP, hn, hh, hF, hp, responseWrapper.flush, responseWrapper.WriteHeader]

/-- Witness for C2: a handler that writes status 200 and body `[7]` and
then panics yields observed status 500 with the partial body flushed. -/
theorem routeC2_witness :
    serveHTTP rPanic sPlain "/t"
      = { sinkEvents := [SinkEvent.writeHeader 500, SinkEvent.write [7]],
          fallbackInvoked := false, filtersRun := 0, handlerRan := true,
          ctxPassed := some 0 } :=
  (routeC2 rPanic sPlain "/t" (Node.mk (some hPanic) [] []) hPanic rfl rfl).2 rfl rfl

/-- C4: for every matched node with a registered handler, filters
execute in registration order against the buffered sink; the first
filter returning false causes the buffered response (whatever that
filter and its predecessors wrote) to be flushed and neither the
remaining filters nor the handler to run; if every filter returns true,
the handler is invoked with the dispatch context and the buffered
response is flushed exactly once afterward. -/
theorem routeC4 (r : DynamicRouter) (s : Sink) (path : String) (n : Node) (h : HandlerSpec)
    (hn : parseTree r.root (SplitPath path) = Except.ok n)
    (hh : n.handler = some h) :
    (∀ (fs1 : List FilterSpec) (f : FilterSpec) (fs2 : List FilterSpec),
      n.filters = fs1 ++ f :: fs2 →
      (∀ g ∈ fs1, g.result = some true) → f.result = some false →
      serveHTTP r s path =
        { sinkEvents := (applyOps (foldFilters (mkWrapper s) fs1) f.ops).flush
          fallbackInvoked := false
          filtersRun := fs1.length + 1
          handlerRan := false, ctxPassed := none })
    ∧ ((∀ g ∈ n.filters, g.result = some true) → h.panics = false →
      serveHTTP r s path =
        { sinkEvents := (applyOps (foldFilters (mkWrapper s) n.filters) h.ops).flush
          fallbackInvoked := false
          filtersRun := n.filters.length
          handlerRan := true, ctxPassed := some r.ctx }) := by
  constructor
  · intro fs1 f fs2 hsplit hall hf
    have hrf := runFilters_short_circuit fs1 f fs2 (mkWrapper s) hall hf
    rw [← hsplit] at hrf
    simp [serveHTTP, hn, hh, hrf]
  · intro hall hp
    have hrf := runFilters_all_true n.filters (mkWrapper s) hall
    simp [serveHTTP, hn, hh, hrf, hp]

/-- Witness for C4: a 401-writing rejecting filter short-circuits past
the handler, and an all-passing chain reaches the handler. -/
theorem routeC4_witness :
    (serveHTTP rFilters sPlain "/t"
      = { sinkEvents := (applyOps (foldFilters (mkWrapper sPlain) [fTrue]) f401.ops).flush
          fallbackInvoked := false, filtersRun := 2, handlerRan := false,
          ctxPassed := none })
    ∧ (serveHTTP rAllPass sPlain "/u"
      = { sinkEvents := (applyOps (foldFilters (mkWrapper sPlain)
            (Node.mk (some hA) [fTrue] []).filters) hA.ops).flush
          fallbackInvoked := false, filtersRun := 1, handlerRan := true,
          ctxPassed := some 4 }) :=
  ⟨(routeC4 rFilters sPlain "/t" (Node.mk (some hA) [fTrue, f401, fAfter] []) hA rfl rfl).1
      [fTrue] f401 [fAfter] rfl (by decide) rfl,
   (routeC4 rAllPass sPlain "/u" (Node.mk (some hA) [fTrue] []) hA rfl rfl).2 (by decide) rfl⟩

/-- C5: for every request whose trie lookup fails, if no fallback
static-file handler is configured the buffered status is set to 404 and
flushed with no handler or filter invoked; if a fallback is configured
it is invoked directly against the original, unwrapped sink and the
buffering adapter transmits nothing. -/
theorem routeC5 (r : DynamicRouter) (s : Sink) (path : String) (e : LookupError)
    (he : parseTree r.root (SplitPath path) = Except.error e) :
    (r.hasFileServer = false →
      serveHTTP r s path =
        { sinkEvents := [SinkEvent.writeHeader 404, SinkEvent.write []]
          fallbackInvoked := false, filtersRun := 0, handlerRan := false
          ctxPassed := none })
    ∧ (r.hasFileServer = true →
      serveHTTP r s path =
        { sinkEvents := [], fallbackInvoked := true, filtersRun := 0
          handlerRan := false, ctxPassed := none }) := by
  constructor
  · intro hfs
    simp [serveHTTP, he, hfs, responseWrapper.flush, responseWrapper.WriteHeader, mkWrapper]
  · intro hfs
    simp [serveHTTP, he, hfs]

/-- Witness for C5 on a router with no routes, in both configurations. -/
theorem routeC5_witness :
    (serveHTTP { root := [], ctx := 0, hasFileServer := false } sPlain "/miss"
      = { sinkEvents := [SinkEvent.writeHeader 404, SinkEvent.write []]
          fallbackInvoked := false, filtersRun := 0, handlerRan := false
          ctxPassed := none })
    ∧ (serveHTTP { root := [], ctx := 0, hasFileServer := true } sPlain "/miss"
      = { sinkEvents := [], fallbackInvoked := true, filtersRun := 0
          handlerRan := false, ctxPassed := none }) :=
  ⟨(routeC5 { root := [], ctx := 0, hasFileServer := false } sPlain "/miss"
      LookupError.unknownPath rfl).1 rfl,
   (routeC5 { root := [], ctx := 0, hasFileServer := true } sPlain "/miss"
      LookupError.unknownPath rfl).2 rfl⟩

/-! Registration argument failures (claim C7). -/

theorem regGo_all_empty (h : HandlerSpec) (fs : List FilterSpec) :
    ∀ (ts : List String) (cs : Children), (∀ t ∈ ts, t = "") →
      regGo h fs cs ts = (cs, some RegError.nilNodePanic) := by
  intro ts
  induction ts with
  | nil =>
    intro cs _
    rfl
  | cons p rest ih =>
    intro cs hall
    have hp : p = "" := hall p (List.mem_cons_self p rest)
    subst hp
    rw [show regGo h fs cs ("" :: rest) = regGo h fs cs rest from by simp [regGo]]
    exact ih cs (fun t ht => hall t (List.mem_cons_of_mem _ ht))

/-- C7 (amended): registration fails with InvalidRegistration
(`handler cannot be nil`) when the handler is absent, and with
InvalidRegistration (`path cannot be nil`) when the token list itself is
empty; but a non-empty token list whose tokens are all empty (such as
the patterns `""` or `"/"`, which tokenize to a single empty token)
instead fails with the runtime nil-pointer panic at the terminal handler
check.  In all three cases the trie is left unchanged. -/
theorem routeC7 :
    (∀ (root : Children) (paths : List String) (fs : List FilterSpec),
      registerHandler root paths none fs = (root, some RegError.nilHandler))
    ∧ (∀ (root : Children) (h : HandlerSpec) (fs : List FilterSpec),
      registerHandler root [] (some h) fs = (root, some RegError.nilPath))
    ∧ (∀ (root : Children) (paths : List String) (h : HandlerSpec) (fs : List FilterSpec),
      paths ≠ [] → elide paths = [] →
      registerHandler root paths (some h) fs = (root, some RegError.nilNodePanic)) := by
  refine ⟨fun root paths fs => rfl, fun root h fs => rfl, ?_⟩
  intro root paths h fs hne hel
  have hall : ∀ t ∈ paths, t = "" := by
    intro t ht
    have := List.filter_eq_nil_iff.mp hel t ht
    simpa using this
  have hlen : ¬paths.length < 1 := by
    cases paths with
    | nil => exact absurd rfl hne
    | cons a t => simp
  simp only [registerHandler, if_neg hlen]
  exact regGo_all_empty h fs paths root hall

/-- Counterexample for C7 as frozen: registering the pattern `"/"`
(whose single token is empty) with a valid handler does not fail with
either InvalidRegistration panic — it fails with the runtime
nil-pointer dereference. -/
theorem routeC7_counterexample :
    registerHandler [] (SplitPath "/") (some hA) [] = ([], some RegError.nilNodePanic)
    ∧ RegError.isInvalidRegistration RegError.nilNodePanic = false :=
  ⟨rfl, rfl⟩

/-- Witness for C7 (amended) at concrete arguments. -/
theorem routeC7_witness :
    (registerHandler [("q", newNode)] ["a"] none [] = ([("q", newNode)], some RegError.nilHandler))
    ∧ (registerHandler [] [] (some hA) [] = ([], some RegError.nilPath))
    ∧ (registerHandler [] [""] (some hA) [] = ([], some RegError.nilNodePanic)) :=
  ⟨routeC7.1 [("q", newNode)] ["a"] [],
   routeC7.2.1 [] hA [],
   routeC7.2.2 [] [""] hA [] (by decide) (by decide)⟩

/-! Tokenizer lemmas (claim C8). -/

theorem trimSuffixSlash_append_slash :
    ∀ (l : List Char), trimSuffixSlash (l ++ ['/']) = l := by
  intro l
  induction l with
  | nil => simp [trimSuffixSlash]
  | cons c t ih =>
    cases t with
    | nil => simp [trimSuffixSlash]
    | cons d t2 =>
      rw [show ((c :: d :: t2) ++ ['/']) = c :: ((d :: t2) ++ ['/']) from rfl]
      rw [show trimSuffixSlash (c :: ((d :: t2) ++ ['/'])) =
          c :: trimSuffixSlash ((d :: t2) ++ ['/']) from by simp [trimSuffixSlash]]
      rw [ih]

theorem trimSuffixSlash_of_no_trailing :
    ∀ (l : List Char), l.getLast? ≠ some '/' → trimSuffixSlash l = l := by
  intro l
  induction l with
  | nil => intro _; rfl
  | cons c t ih =>
    intro h
    cases t with
    | nil =>
      have hc : c ≠ '/' := by simpa using h
      simp [trimSuffixSlash, hc]
    | cons d t2 =>
      have h2 : (d :: t2).getLast? ≠ some '/' := by
        simpa [List.getLast?_cons_cons] using h
      rw [show trimSuffixSlash (c :: d :: t2) = c :: trimSuffixSlash (d :: t2) from by
        simp [trimSuffixSlash]]
      rw [ih h2]

theorem trimPrefixSlash_append_of_ne_nil :
    ∀ (l : List Char), l ≠ [] →
      trimPrefixSlash (l ++ ['/']) = trimPrefixSlash l ++ ['/'] := by
  intro l hl
  cases l with
  | nil => exact absurd rfl hl
  | cons c t =>
    by_cases hc : c = '/'
    · subst hc
      simp [trimPrefixSlash]
    · simp [trimPrefixSlash, hc]

/-- C8 (amended): the tokenizer strips one leading and one trailing
slash and splits the remainder on slashes; the empty input yields a
single empty token, and exactly one slash is stripped at each end (for
instance `"//a//"` keeps one empty token on each side).  Consequently,
when the path stripped of its leading slash does not already end in a
slash, appending one trailing slash leaves tokenization — and therefore
lookup against any trie — unchanged. -/
theorem routeC8 :
    (∀ l : List Char, SplitPath (String.mk l)
        = (splitSlash (trimSuffixSlash (trimPrefixSlash l))).map String.mk)
    ∧ (SplitPath "" = [""])
    ∧ (SplitPath "//a//" = ["", "a", ""])
    ∧ (∀ (l : List Char) (cs : Children),
        (trimPrefixSlash l).getLast? ≠ some '/' →
        SplitPath (String.mk (l ++ ['/'])) = SplitPath (String.mk l)
        ∧ parseTree cs (SplitPath (String.mk (l ++ ['/'])))
            = parseTree cs (SplitPath (String.mk l))) := by
  refine ⟨fun l => rfl, rfl, rfl, ?_⟩
  intro l cs h
  have key : trimSuffixSlash (trimPrefixSlash (l ++ ['/']))
      = trimSuffixSlash (trimPrefixSlash l) := by
    cases l with
    | nil => rfl
    | cons c t =>
      rw [trimPrefixSlash_append_of_ne_nil (c :: t) (by simp)]
      rw [trimSuffixSlash_append_slash]
      rw [trimSuffixSlash_of_no_trailing _ h]
  have hsp : SplitPath (String.mk (l ++ ['/'])) = SplitPath (String.mk l) := by
    show (splitSlash (trimSuffixSlash (trimPrefixSlash (l ++ ['/'])))).map String.mk
        = (splitSlash (trimSuffixSlash (trimPrefixSlash l))).map String.mk
    rw [key]
  exact ⟨hsp, by rw [hsp]⟩

/-- Counterexample for C8 as frozen: with `"/a/"` registered, the path
`"/a//"` differs from it only by one appended trailing slash, yet it
does not resolve to the registered node — tokenization keeps the extra
empty token and lookup fails. -/
theorem routeC8_counterexample :
    (registerHandler [] (SplitPath "/a/") (some hA) []).2 = none
    ∧ parseTree (registerHandler [] (SplitPath "/a/") (some hA) []).1 (SplitPath "/a/")
        = Except.ok (Node.mk (some hA) [] [])
    ∧ parseTree (registerHandler [] (SplitPath "/a/") (some hA) []).1 (SplitPath "/a//")
        = Except.error LookupError.unknownPath :=
  ⟨rfl, rfl, rfl⟩

/-- Witness for C8 (amended) at a concrete path and trie. -/
theorem routeC8_witness :
    SplitPath (String.mk (['/', 'a'] ++ ['/'])) = SplitPath (String.mk ['/', 'a'])
    ∧ parseTree [("a", newNode)] (SplitPath (String.mk (['/', 'a'] ++ ['/'])))
        = parseTree [("a", newNode)] (SplitPath (String.mk ['/', 'a'])) :=
  routeC8.2.2.2 ['/', 'a'] [("a", newNode)] (by decide)

/-- C9 (code evaluation): the Go wrapper embeds the `http.Hijacker`
interface, so its method set always advertises the hijack capability —
even over a sink that does not support hijacking, where invoking the
promoted `Hijack` method dereferences the nil embedded interface and
panics.  Over a hijack-capable sink the capability is preserved and
usable.  The claim's requirement that the capability query report the
capability absent over a non-hijackable sink is violated by the code. -/
theorem routeC9_code_eval :
    (hijackCapabilityAdvertised (mkWrapper sHijack) = true
      ∧ responseWrapper.Hijack (mkWrapper sHijack) = HijackOutcome.hijacked)
    ∧ (hijackCapabilityAdvertised (mkWrapper sPlain) = true
      ∧ responseWrapper.Hijack (mkWrapper sPlain) = HijackOutcome.nilInterfacePanic) :=
  ⟨⟨rfl, rfl⟩, ⟨rfl, rfl⟩⟩

/-! Buffered-body lemmas (claim C10). -/

theorem applyWOp_body_write (w : responseWrapper) (b : Bytes) :
    (applyWOp w (WOp.write b)).body = b := rfl

theorem body_applyOps :
    ∀ (ops : List WOp) (w : responseWrapper),
      (applyOps w ops).body = (lastWrite? ops).getD w.body := by
  intro ops
  induction ops with
  | nil =>
    intro w
    rfl
  | cons op rest ih =>
    intro w
    cases op with
    | writeHeader c =>
      rw [show applyOps w (WOp.writeHeader c :: rest)
          = applyOps (w.WriteHeader c) rest from rfl]
      rw [ih]
      rfl
    | write b =>
      rw [show applyOps w (WOp.write b :: rest)
          = applyOps { w with body := b } rest from rfl]
      rw [ih]
      rw [show lastWrite? (WOp.write b :: rest)
          = some ((lastWrite? rest).getD b) from rfl]
      cases lastWrite? rest <;> rfl

/-- C10: the body transmitted to the underlying sink at flush time
equals the argument of the most recent Write call on the buffering
wrapper (earlier writes are discarded, not concatenated), and every
Write call on the wrapper returns the full length of its argument with
a nil error regardless of how many writes precede it. -/
theorem routeC10 :
    (∀ (w : responseWrapper) (b : Bytes),
      responseWrapper.Write w b = ({ w with body := b }, b.length, none))
    ∧ (∀ (ops : List WOp) (w : responseWrapper),
      (applyOps w ops).body = (lastWrite? ops).getD w.body)
    ∧ (∀ (r : DynamicRouter) (s : Sink) (path : String) (n : Node) (h : HandlerSpec),
      parseTree r.root (SplitPath path) = Except.ok n →
      n.handler = some h → n.filters = [] → h.panics = false →
      (serveHTTP r s path).sinkEvents
        = [SinkEvent.writeHeader (applyOps (mkWrapper s) h.ops).status,
           SinkEvent.write ((lastWrite? h.ops).getD [])]) := by
  refine ⟨fun w b => rfl, body_applyOps, ?_⟩
  intro r s path n h hn hh hf hp
  have hrf : runFilters (mkWrapper s) n.filters
      = (mkWrapper s, 0, FiltersOutcome.allTrue) := by
    rw [hf]
    rfl
  simp [serveHTTP, hn, hh, hrf, hp, responseWrapper.flush]
  rw [body_applyOps]
  rfl

/-- Witness for C10: two writes through the wrapper; only the second
write's payload reaches the sink, and a Write call reports full length
and nil error. -/
theorem routeC10_witness :
    (responseWrapper.Write (mkWrapper sPlain) [1, 2]
      = ({ hijacker := none, status := 200, body := [1, 2] }, 2, none))
    ∧ ((applyOps (mkWrapper sPlain) hTwoWrites.ops).body = [9])
    ∧ ((serveHTTP rTwoWrites sPlain "/w").sinkEvents
      = [SinkEvent.writeHeader 200, SinkEvent.write [9]]) :=
  ⟨routeC10.1 (mkWrapper sPlain) [1, 2],
   routeC10.2.1 hTwoWrites.ops (mkWrapper sPlain),
   routeC10.2.2 rTwoWrites sPlain "/w" (Node.mk (some hTwoWrites) [] [])
     hTwoWrites rfl rfl rfl rfl⟩
